import Mathlib

/-!
Shallow embedding of `src/scripts/collectCitiBikeNycData.py` and proofs about it.

The script downloads monthly CitiBike trip-data archives, extracts them into a
local output directory, and deletes each archive after a successful extraction.
Pure computations (date arithmetic, token formatting, string comparison, URL
construction) are translated directly from the Python source; the effectful
parts (HTTP download, zip extraction, the filesystem) are embedded as explicit
state passing over a finite map of file paths to contents, with the behavior of
the external world (network, archive contents) supplied as an oracle argument.
-/

namespace CitiBike

/-- A calendar date, as Python's `datetime.date` triple of year, month, day.
Python validates `1 ≤ month ≤ 12` and `1 ≤ day ≤ days in month` at
construction; theorems carry those bounds as hypotheses where they matter. -/
structure Date where
  year : Nat
  month : Nat
  day : Nat
deriving DecidableEq, Repr

/-- Python's `date <= date` comparison: lexicographic on (year, month, day). -/
def Date.leb (a b : Date) : Bool :=
  decide (a.year < b.year ∨ (a.year = b.year ∧
    (a.month < b.month ∨ (a.month = b.month ∧ a.day ≤ b.day))))

/-- Python's strict `date < date` comparison. -/
def Date.ltb (a b : Date) : Bool :=
  decide (a.year < b.year ∨ (a.year = b.year ∧
    (a.month < b.month ∨ (a.month = b.month ∧ a.day < b.day))))

theorem Date.leb_iff (a b : Date) : Date.leb a b = true ↔
    (a.year < b.year ∨ (a.year = b.year ∧
      (a.month < b.month ∨ (a.month = b.month ∧ a.day ≤ b.day)))) := by
  simp [Date.leb]

theorem Date.ltb_iff (a b : Date) : Date.ltb a b = true ↔
    (a.year < b.year ∨ (a.year = b.year ∧
      (a.month < b.month ∨ (a.month = b.month ∧ a.day < b.day)))) := by
  simp [Date.ltb]

/-- `b < a` refutes `a <= b` (the date order is total). -/
theorem Date.leb_eq_false_of_ltb (a b : Date) (h : Date.ltb b a = true) :
    Date.leb a b = false := by
  rw [Date.ltb_iff] at h
  rw [Bool.eq_false_iff]
  intro hc
  rw [Date.leb_iff] at hc
  omega

/-- Whether a Gregorian year is a leap year (models `datetime`'s calendar). -/
def isLeap (y : Nat) : Bool :=
  y % 4 == 0 && (y % 100 != 0 || y % 400 == 0)

/-- Number of days in a Gregorian month (models `datetime`'s calendar). -/
def daysInMonth (y m : Nat) : Nat :=
  if m = 2 then (if isLeap y then 29 else 28)
  else if m = 4 ∨ m = 6 ∨ m = 9 ∨ m = 11 then 30
  else 31

/-- `d - timedelta(days=1)` for a valid date `d` (models Python's date
arithmetic: borrow from the previous month, rolling over January). -/
def subOneDay (d : Date) : Date :=
  if 1 < d.day then ⟨d.year, d.month, d.day - 1⟩
  else if d.month = 1 then ⟨d.year - 1, 12, 31⟩
  else ⟨d.year, d.month - 1, daysInMonth d.year (d.month - 1)⟩

/-- `get_most_recent_date` (lines 46-55): `today.replace(day=1) - timedelta(days=1)`,
the last day of the month preceding `today`'s month.  (The Python function's
docstring promises a string but the function returns the `date` itself; the
`strftime("%Y%m")` formatting happens at the call site in `main`.) -/
def get_most_recent_date (today : Date) : Date :=
  subOneDay ⟨today.year, today.month, 1⟩

/-- The month counter used to reason about month arithmetic:
number of months from year 0 month 1 to this date's month. -/
def monthIndex (d : Date) : Nat := d.year * 12 + (d.month - 1)

/-- The month-advance step of `generate_date_strings` (lines 72-76):
first day of the next month, rolling over December. -/
def nextMonth (d : Date) : Date :=
  if d.month = 12 then ⟨d.year + 1, 1, 1⟩ else ⟨d.year, d.month + 1, 1⟩

/-- `"%Y"` formatting of a year in 1000..9999: its four decimal digits.
(The model is faithful for four-digit years, the only ones the claims and the
script's data range involve.) -/
def fourDigit (n : Nat) : List Char :=
  [Nat.digitChar (n / 1000 % 10), Nat.digitChar (n / 100 % 10),
   Nat.digitChar (n / 10 % 10), Nat.digitChar (n % 10)]

/-- `"%m"` formatting of a month: two decimal digits, zero-padded. -/
def twoDigit (n : Nat) : List Char :=
  [Nat.digitChar (n / 10 % 10), Nat.digitChar (n % 10)]

/-- `d.strftime("%Y%m")` for a date with a four-digit year: the `YYYYMM` token. -/
def strftimeYm (y m : Nat) : String :=
  String.mk (fourDigit y ++ twoDigit m)

/-- The body of `generate_date_strings` (lines 69-76): the `while` loop, with
an explicit iteration bound (`fuel`).  Each pass yields the current month's
token and moves `cur` to the first day of the next month. -/
def generate_aux : Nat → Date → Date → List String
  | 0, _, _ => []
  | fuel + 1, cur, stop =>
    if Date.leb cur stop then
      strftimeYm cur.year cur.month :: generate_aux fuel (nextMonth cur) stop
    else []

/-- `generate_date_strings` (lines 58-76): one `YYYYMM` token per month from
`start_date`'s month through `end_date`'s month.  The fuel
`monthIndex end_date + 1 - monthIndex start_date` is exactly the number of
loop iterations for valid dates (proved by `generate_aux_eq` below). -/
def generate_date_strings (start_date end_date : Date) : List String :=
  generate_aux (monthIndex end_date + 1 - monthIndex start_date) start_date end_date

/-- The token of month number `k`: the `YYYYMM` string of year `k / 12`,
month `k % 12 + 1`. -/
def tokenOfIndex (k : Nat) : String :=
  strftimeYm (k / 12) (k % 12 + 1)

/-- Python's `<=` on lists of characters: lexicographic by code point. -/
def pyCharsLe : List Char → List Char → Bool
  | [], _ => true
  | _ :: _, [] => false
  | c :: cs, d :: ds =>
    if c.toNat < d.toNat then true
    else if d.toNat < c.toNat then false
    else pyCharsLe cs ds

/-- Python's `str <= str` comparison, as used in `main` (line 215). -/
def pyStrLe (s t : String) : Bool := pyCharsLe s.data t.data

/-- The `DATA_SOURCE_URL` constant (line 36). -/
def DATA_SOURCE_URL : String := "https://s3.amazonaws.com/tripdata/"

/-- The `DATA_DIR` constant (line 33): `os.path.join(dirname(__file__), '..', 'raw_data')`,
rendered here as the relative path the join produces. -/
def DATA_DIR : String := "../raw_data"

/-- `os.path.join` for one extra component, as used on lines 33 and 98. -/
def pathJoin (a b : String) : String := a ++ "/" ++ b

/-- The backfill URL construction (line 215):
`f"{DATA_SOURCE_URL}{date_str}-citibike-tripdata{date_str <= '202404' and '.csv' or ''}.zip"`.
Python's `and`/`or` chain evaluates to `'.csv'` when the comparison holds
(`'.csv'` is truthy) and to `''` otherwise. -/
def backfillUrl (date_str : String) : String :=
  DATA_SOURCE_URL ++ date_str ++ "-citibike-tripdata" ++
    (if pyStrLe date_str "202404" then ".csv" else "") ++ ".zip"

/-- The default-mode URL construction (line 221):
`f"{DATA_SOURCE_URL}{current_date}-citibike-tripdata.zip"` — note: no legacy
`.csv` suffix is ever appended on this path. -/
def defaultUrl (date_str : String) : String :=
  DATA_SOURCE_URL ++ date_str ++ "-citibike-tripdata.zip"

/-- The parsed command line (`parse_args`, lines 157-180). -/
structure Args where
  backfill : Bool
  url : Option String

/-- Python's truthiness test `if args.url:` — `None` and `""` are falsy. -/
def argTruthy : Option String → Bool
  | none => false
  | some s => s ≠ ""

/-- The URL(s) a run of `main` (lines 201-222) processes, one per period, in
order: an explicit `--url` is used verbatim and takes precedence; `--backfill`
maps every generated token through the line-215 construction; otherwise the
single most-recent-month URL is built by line 221. -/
def resolvedUrls (args : Args) (today : Date) : List String :=
  if argTruthy args.url then [args.url.getD ""]
  else if args.backfill then
    (generate_date_strings ⟨2024, 1, 1⟩ (get_most_recent_date today)).map backfillUrl
  else
    [defaultUrl (strftimeYm (get_most_recent_date today).year
      (get_most_recent_date today).month)]

/-!  ### The filesystem model and the effectful pipeline

The filesystem is an association list from absolute path to file contents
(directories are not tracked: none of the claims concern them beyond their
creation being idempotent).  The network and the contents of archives are
oracle inputs: each downloaded or extracted byte string is supplied by the
environment, and the code's control flow on success and failure is what is
translated from the source. -/

/-- The filesystem: a finite map, path to contents. -/
abbrev FS := List (String × String)

/-- Content of the file at `p`, if present. -/
def FS.lookup (fs : FS) (p : String) : Option String :=
  (fs.find? (fun e => decide (e.1 = p))).map (fun e => e.2)

/-- Create or truncate-and-overwrite the file at `p` (Python `open(p, 'wb')`). -/
def FS.write (fs : FS) (p c : String) : FS :=
  (p, c) :: fs.filter (fun e => !decide (e.1 = p))

/-- `os.remove p`. -/
def FS.remove (fs : FS) (p : String) : FS :=
  fs.filter (fun e => !decide (e.1 = p))

/-- Write a list of files in order (later entries overwrite earlier ones). -/
def FS.writeAll (fs : FS) (es : List (String × String)) : FS :=
  es.foldl (fun a e => FS.write a e.1 e.2) fs

/-- The characters before the first occurrence of `sep` (the whole list when
`sep` does not occur). -/
def takeBefore (sep : Char) : List Char → List Char
  | [] => []
  | c :: cs => if c = sep then [] else c :: takeBefore sep cs

/-- The characters after the first occurrence of `"://"`, when there is one. -/
def splitScheme : List Char → Option (List Char)
  | ':' :: '/' :: '/' :: rest => some rest
  | _ :: cs => splitScheme cs
  | [] => none

/-- The suffix starting at the first `/` (empty when there is no `/`). -/
def pathFrom : List Char → List Char
  | [] => []
  | c :: cs => if c = '/' then c :: cs else pathFrom cs

/-- `urlparse(url).path` from `urllib.parse`, modelled for the URL shapes the
script handles: the fragment (after `#`) and query (after `?`) are dropped;
with a `scheme://netloc` present the path is everything from the first `/`
after the netloc; without a scheme the remainder is the path. -/
def urlparsePath (url : String) : String :=
  match splitScheme (takeBefore '?' (takeBefore '#' url.data)) with
  | some rest => String.mk (pathFrom rest)
  | none => String.mk (takeBefore '?' (takeBefore '#' url.data))

/-- `os.path.basename`: the text after the last `/` (empty for a trailing
slash or an empty path). -/
def basename (p : String) : String :=
  String.mk (p.data.foldl (fun acc c => if c = '/' then [] else acc ++ [c]) [])

/-- The network's behavior for one `requests.get` call, as `download_file`
observes it. -/
inductive DlOutcome where
  /-- A `RequestException`: connection failure, or a non-success status
  raised by `raise_for_status()` — in either case before the output file is
  opened. -/
  | requestError
  /-- Success: the full body streamed into the file. -/
  | streamOk (body : String)
  /-- The headers succeeded but the body stream raised after `got` was
  already written to the open file. -/
  | streamFail (got : String)

/-- `download_file` (lines 79-119).  The filename is the basename of the URL
path; an empty one raises `ValueError`, caught by the broad handler (`None`).
The file at `output_path` is opened for writing only after
`raise_for_status()`, so a request error creates nothing; a mid-stream
failure leaves the partially written file behind and returns `None`. -/
def download_file (fs : FS) (url : String) (out : DlOutcome) :
    FS × Option String :=
  if basename (urlparsePath url) = "" then (fs, none)
  else
    match out with
    | .requestError => (fs, none)
    | .streamOk body =>
      (FS.write fs (pathJoin DATA_DIR (basename (urlparsePath url))) body,
        some (pathJoin DATA_DIR (basename (urlparsePath url))))
    | .streamFail got =>
      (FS.write fs (pathJoin DATA_DIR (basename (urlparsePath url))) got, none)

/-- The behavior of `zipfile` for one `ZipFile(zip_path)` + `extractall` run.
`extractall` extracts members one at a time, so a failure part-way leaves the
members already extracted on disk. -/
inductive ExOutcome where
  /-- Every entry extracted. -/
  | ok (entries : List (String × String))
  /-- `zipfile.BadZipFile`, after the entries in `got` were extracted
  (`got = []` when the container itself is invalid and `ZipFile` fails
  at open). -/
  | badZip (got : List (String × String))
  /-- Any other exception during extraction, after the entries in `got`
  were extracted. -/
  | ioError (got : List (String × String))
  /-- Extraction succeeded in full but the final `os.remove` raised. -/
  | removeFail (entries : List (String × String))

/-- Archive entries land at `DATA_DIR/name` (entry names are preserved). -/
def extractTargets (es : List (String × String)) : List (String × String) :=
  es.map (fun e => (pathJoin DATA_DIR e.1, e.2))

/-- `unzip_file` (lines 122-154): extract everything into `DATA_DIR`, then
`os.remove` the archive; `BadZipFile` and any other exception are caught and
yield `False`, with no cleanup of anything already extracted. -/
def unzip_file (fs : FS) (zip_path : String) (out : ExOutcome) : FS × Bool :=
  match out with
  | .ok entries =>
    (FS.remove (FS.writeAll fs (extractTargets entries)) zip_path, true)
  | .badZip got => (FS.writeAll fs (extractTargets got), false)
  | .ioError got => (FS.writeAll fs (extractTargets got), false)
  | .removeFail entries => (FS.writeAll fs (extractTargets entries), false)

/-- The environment one period's pipeline runs against. -/
structure PeriodEnv where
  dl : DlOutcome
  ex : ExOutcome

/-- `download_and_unzip` (lines 183-198): download, and only on a non-`None`
path attempt extraction; failures are logged and absorbed. -/
def download_and_unzip (fs : FS) (url : String) (env : PeriodEnv) : FS :=
  match download_file fs url env.dl with
  | (fs1, some zip_path) => (unzip_file fs1 zip_path env.ex).1
  | (fs1, none) => fs1

/-- The per-URL loop of `main`: process every URL in order, never stopping on
a failure (the `for` loop has no `break`), and record the processed list. -/
def processUrls (fs : FS) (urls : List String) (env : String → PeriodEnv) :
    FS × List String :=
  match urls with
  | [] => (fs, [])
  | u :: us =>
    let r := processUrls (download_and_unzip fs u (env u)) us env
    (r.1, u :: r.2)

/-- A whole run of `main` (lines 201-222) over the resolved URLs. -/
def runMain (args : Args) (today : Date) (fs : FS) (env : String → PeriodEnv) :
    FS × List String :=
  processUrls fs (resolvedUrls args today) env

/-- Number of occurrences of `pat` as a contiguous sublist of `s` (counting
start positions). -/
def countOcc (pat : List Char) : List Char → Nat
  | [] => if pat.isPrefixOf ([] : List Char) then 1 else 0
  | c :: cs => (if pat.isPrefixOf (c :: cs) then 1 else 0) + countOcc pat cs

/-- The legacy suffix `".csv"` as a character list. -/
def dotCsv : List Char := ['.', 'c', 's', 'v']

/-- The number denoted by a big-endian list of decimal digits. -/
def valDigits : List Nat → Nat
  | [] => 0
  | d :: ds => d * 10 ^ ds.length + valDigits ds

/-! ### Filesystem lemmas -/

theorem FS.lookup_cons (e : String × String) (fs : FS) (q : String) :
    FS.lookup (e :: fs) q = if e.1 = q then some e.2 else FS.lookup fs q := by
  by_cases h : e.1 = q
  · simp [FS.lookup, List.find?_cons_of_pos, h]
  · simp [FS.lookup, List.find?_cons_of_neg, h]

theorem FS.lookup_filter_ne (fs : FS) (p q : String) (h : q ≠ p) :
    FS.lookup (fs.filter (fun e => !decide (e.1 = p))) q = FS.lookup fs q := by
  induction fs with
  | nil => rfl
  | cons e rest ih =>
    by_cases he : e.1 = p
    · rw [List.filter_cons, if_neg (by simp [he]), ih, FS.lookup_cons,
        if_neg (fun hc : e.1 = q => h (hc ▸ he))]
    · rw [List.filter_cons, if_pos (by simp [he]), FS.lookup_cons,
        FS.lookup_cons, ih]

theorem FS.lookup_write_self (fs : FS) (p c : String) :
    FS.lookup (FS.write fs p c) p = some c := by
  rw [FS.write, FS.lookup_cons, if_pos rfl]

theorem FS.lookup_write_ne (fs : FS) (p c q : String) (h : q ≠ p) :
    FS.lookup (FS.write fs p c) q = FS.lookup fs q := by
  rw [FS.write, FS.lookup_cons, if_neg (fun hc => h hc.symm)]
  exact FS.lookup_filter_ne fs p q h

theorem FS.lookup_remove_self (fs : FS) (p : String) :
    FS.lookup (FS.remove fs p) p = none := by
  induction fs with
  | nil => rfl
  | cons e rest ih =>
    by_cases he : e.1 = p
    · rw [FS.remove, List.filter_cons, if_neg (by simp [he])]
      exact ih
    · rw [FS.remove, List.filter_cons, if_pos (by simp [he]), FS.lookup_cons,
        if_neg he]
      exact ih

theorem FS.lookup_remove_ne (fs : FS) (p q : String) (h : q ≠ p) :
    FS.lookup (FS.remove fs p) q = FS.lookup fs q :=
  FS.lookup_filter_ne fs p q h

theorem FS.writeAll_lookup_none (fs : FS) (es : List (String × String))
    (p : String) (h : FS.lookup (FS.writeAll fs es) p = none) :
    FS.lookup fs p = none := by
  induction es generalizing fs with
  | nil => exact h
  | cons e rest ih =>
    have h1 := ih (FS.write fs e.1 e.2) h
    by_cases hp : p = e.1
    · rw [hp, FS.lookup_write_self] at h1
      exact absurd h1 (by simp)
    · rwa [FS.lookup_write_ne fs e.1 e.2 p hp] at h1

theorem FS.writeAll_lookup_isSome (fs : FS) (es : List (String × String))
    (p : String) (h : (FS.lookup fs p).isSome) :
    (FS.lookup (FS.writeAll fs es) p).isSome := by
  rcases ho : FS.lookup (FS.writeAll fs es) p with _ | c
  · rw [FS.writeAll_lookup_none fs es p ho] at h
    simp at h
  · simp

theorem FS.writeAll_lookup_not_mem (fs : FS) (es : List (String × String))
    (p : String) (h : p ∉ es.map Prod.fst) :
    FS.lookup (FS.writeAll fs es) p = FS.lookup fs p := by
  induction es generalizing fs with
  | nil => rfl
  | cons e rest ih =>
    simp only [List.map_cons, List.mem_cons] at h
    push_neg at h
    rw [show FS.writeAll fs (e :: rest) = FS.writeAll (FS.write fs e.1 e.2) rest from rfl,
      ih (FS.write fs e.1 e.2) h.2, FS.lookup_write_ne fs e.1 e.2 p h.1]

theorem FS.writeAll_lookup_mem (fs : FS) (es : List (String × String))
    (n c : String) (hnd : (es.map Prod.fst).Nodup) (hm : (n, c) ∈ es) :
    FS.lookup (FS.writeAll fs es) n = some c := by
  induction es generalizing fs with
  | nil => cases hm
  | cons e rest ih =>
    simp only [List.map_cons, List.nodup_cons] at hnd
    rcases List.mem_cons.mp hm with he | hr
    · have : e.1 = n ∧ e.2 = c := by rw [← he]; exact ⟨rfl, rfl⟩
      rw [show FS.writeAll fs (e :: rest) = FS.writeAll (FS.write fs e.1 e.2) rest from rfl,
        FS.writeAll_lookup_not_mem _ rest n (this.1 ▸ hnd.1), this.1, this.2,
        FS.lookup_write_self]
    · exact ih (FS.write fs e.1 e.2) hnd.2 hr

theorem pathJoin_inj (a n1 n2 : String) (h : pathJoin a n1 = pathJoin a n2) :
    n1 = n2 := by
  unfold pathJoin at h
  have hd := congrArg String.data h
  rw [String.data_append, String.data_append, String.data_append,
    String.data_append] at hd
  exact String.ext (List.append_cancel_left hd)

/-! ### Month-enumeration lemmas -/

theorem monthIndex_le_of_leb (a b : Date) (ha : a.month ≤ 12)
    (h : Date.leb a b = true) : monthIndex a ≤ monthIndex b := by
  rw [Date.leb_iff] at h
  unfold monthIndex
  omega

theorem leb_true_of_monthIndex_le (cur stop : Date)
    (hc1 : 1 ≤ cur.month) (hc2 : cur.month ≤ 12)
    (hcd : cur.day = 1) (hs1 : 1 ≤ stop.month) (hs2 : stop.month ≤ 12)
    (hsd : 1 ≤ stop.day)
    (h : monthIndex cur ≤ monthIndex stop) : Date.leb cur stop = true := by
  rw [Date.leb_iff]
  unfold monthIndex at h
  omega

theorem leb_false_of_monthIndex_lt (cur stop : Date)
    (hc2 : cur.month ≤ 12) (hs1 : 1 ≤ stop.month)
    (h : monthIndex stop < monthIndex cur) : Date.leb cur stop = false := by
  rw [Bool.eq_false_iff]
  intro hc
  rw [Date.leb_iff] at hc
  unfold monthIndex at h
  omega

theorem nextMonth_spec (d : Date) (h1 : 1 ≤ d.month) (h2 : d.month ≤ 12) :
    monthIndex (nextMonth d) = monthIndex d + 1 ∧ 1 ≤ (nextMonth d).month ∧
      (nextMonth d).month ≤ 12 ∧ (nextMonth d).day = 1 := by
  by_cases h : d.month = 12 <;> simp [nextMonth, monthIndex, h] <;> omega

theorem tokenOfIndex_monthIndex (d : Date) (h1 : 1 ≤ d.month)
    (h2 : d.month ≤ 12) : tokenOfIndex (monthIndex d) = strftimeYm d.year d.month := by
  unfold tokenOfIndex monthIndex
  have h3 : (d.year * 12 + (d.month - 1)) / 12 = d.year := by omega
  have h4 : (d.year * 12 + (d.month - 1)) % 12 + 1 = d.month := by omega
  rw [h3, h4]

theorem generate_aux_eq (fuel : Nat) : ∀ cur stop : Date,
    1 ≤ cur.month → cur.month ≤ 12 → cur.day = 1 →
    1 ≤ stop.month → stop.month ≤ 12 → 1 ≤ stop.day →
    monthIndex stop + 1 - monthIndex cur ≤ fuel →
    generate_aux fuel cur stop =
      (List.range' (monthIndex cur) (monthIndex stop + 1 - monthIndex cur)).map
        tokenOfIndex := by
  induction fuel with
  | zero =>
    intro cur stop _ _ _ _ _ _ hf
    rw [show monthIndex stop + 1 - monthIndex cur = 0 by omega]
    rfl
  | succ fuel ih =>
    intro cur stop hc1 hc2 hcd hs1 hs2 hsd hf
    rw [show generate_aux (fuel + 1) cur stop =
        (if Date.leb cur stop then
          strftimeYm cur.year cur.month :: generate_aux fuel (nextMonth cur) stop
        else []) from rfl]
    by_cases h : monthIndex cur ≤ monthIndex stop
    · have hnm := nextMonth_spec cur hc1 hc2
      rw [if_pos (leb_true_of_monthIndex_le cur stop hc1 hc2 hcd hs1 hs2 hsd h),
        ih (nextMonth cur) stop hnm.2.1 hnm.2.2.1 hnm.2.2.2 hs1 hs2 hsd
          (by omega), hnm.1,
        show monthIndex stop + 1 - monthIndex cur =
          (monthIndex stop + 1 - (monthIndex cur + 1)) + 1 by omega,
        List.range'_succ, List.map_cons, tokenOfIndex_monthIndex cur hc1 hc2]
    · rw [if_neg (by
          rw [leb_false_of_monthIndex_lt cur stop hc2 hs1 (by omega)]
          exact fun hc => Bool.noConfusion hc),
        show monthIndex stop + 1 - monthIndex cur = 0 by omega]
      rfl

/-! ### Digit-string lemmas: code-point order on `YYYYMM` tokens is numeric order -/

theorem digitChar_toNat (a : Nat) (h : a < 10) :
    (Nat.digitChar a).toNat = 48 + a := by
  have hfin : ∀ b : Fin 10, (Nat.digitChar b.1).toNat = 48 + b.1 := by decide
  exact hfin ⟨a, h⟩

theorem digitChar_inj (a b : Nat) (ha : a < 10) (hb : b < 10)
    (h : Nat.digitChar a = Nat.digitChar b) : a = b := by
  have := congrArg Char.toNat h
  rw [digitChar_toNat a ha, digitChar_toNat b hb] at this
  omega

theorem valDigits_lt (ds : List Nat) (h : ∀ d ∈ ds, d < 10) :
    valDigits ds < 10 ^ ds.length := by
  induction ds with
  | nil => exact Nat.zero_lt_one
  | cons d rest ih =>
    have hd : d < 10 := h d (List.mem_cons_self d rest)
    have hrest := ih (fun x hx => h x (List.mem_cons_of_mem d hx))
    have hmul : d * 10 ^ rest.length ≤ 9 * 10 ^ rest.length :=
      Nat.mul_le_mul_right _ (by omega)
    rw [show valDigits (d :: rest) = d * 10 ^ rest.length + valDigits rest
      from rfl, show (d :: rest).length = rest.length + 1 from rfl, pow_succ]
    omega

theorem pyCharsLe_digits (ds : List Nat) : ∀ es : List Nat,
    ds.length = es.length → (∀ d ∈ ds, d < 10) → (∀ e ∈ es, e < 10) →
    pyCharsLe (ds.map Nat.digitChar) (es.map Nat.digitChar) =
      decide (valDigits ds ≤ valDigits es) := by
  induction ds with
  | nil =>
    intro es hlen _ _
    cases es with
    | nil => rfl
    | cons e es => simp at hlen
  | cons d rest ih =>
    intro es hlen hd he
    cases es with
    | nil => simp at hlen
    | cons e erest =>
      have hd0 : d < 10 := hd d (List.mem_cons_self d rest)
      have he0 : e < 10 := he e (List.mem_cons_self e erest)
      have hlen' : rest.length = erest.length := by
        simpa using hlen
      simp only [List.map_cons]
      rw [show pyCharsLe (Nat.digitChar d :: rest.map Nat.digitChar)
          (Nat.digitChar e :: erest.map Nat.digitChar) =
        (if (Nat.digitChar d).toNat < (Nat.digitChar e).toNat then true
         else if (Nat.digitChar e).toNat < (Nat.digitChar d).toNat then false
         else pyCharsLe (rest.map Nat.digitChar) (erest.map Nat.digitChar))
        from rfl, digitChar_toNat d hd0, digitChar_toNat e he0]
      have hvr := valDigits_lt rest (fun x hx => hd x (List.mem_cons_of_mem d hx))
      have hve := valDigits_lt erest (fun x hx => he x (List.mem_cons_of_mem e hx))
      have hds : valDigits (d :: rest) = d * 10 ^ rest.length + valDigits rest :=
        rfl
      have hes : valDigits (e :: erest) = e * 10 ^ erest.length + valDigits erest :=
        rfl
      by_cases hlt : d < e
      · rw [if_pos (by omega)]
        have hstep : (d + 1) * 10 ^ rest.length ≤ e * 10 ^ rest.length :=
          Nat.mul_le_mul_right _ (by omega)
        have : valDigits (d :: rest) ≤ valDigits (e :: erest) := by
          rw [hds, hes, ← hlen']
          have : d * 10 ^ rest.length + valDigits rest <
              (d + 1) * 10 ^ rest.length := by
            rw [Nat.succ_mul]
            omega
          omega
        exact (decide_eq_true this).symm
      · by_cases hgt : e < d
        · rw [if_neg (by omega), if_pos (by omega)]
          have hstep : (e + 1) * 10 ^ rest.length ≤ d * 10 ^ rest.length :=
            Nat.mul_le_mul_right _ (by omega)
          rw [← hlen'] at hve
          have : valDigits (e :: erest) < valDigits (d :: rest) := by
            rw [hds, hes, ← hlen']
            have : e * 10 ^ rest.length + valDigits erest <
                (e + 1) * 10 ^ rest.length := by
              rw [Nat.succ_mul]
              omega
            omega
          exact (decide_eq_false (by omega)).symm
        · have heq : d = e := by omega
          rw [if_neg (by omega), if_neg (by omega),
            ih erest hlen' (fun x hx => hd x (List.mem_cons_of_mem d hx))
              (fun x hx => he x (List.mem_cons_of_mem e hx))]
          apply decide_eq_decide.mpr
          rw [hds, hes, ← hlen', heq]
          omega

theorem strftimeYm_data (y m : Nat) : (strftimeYm y m).data =
    [y / 1000 % 10, y / 100 % 10, y / 10 % 10, y % 10,
      m / 10 % 10, m % 10].map Nat.digitChar := rfl

theorem valDigits_ym (y m : Nat) (hy : y ≤ 9999) (hm : m ≤ 99) :
    valDigits [y / 1000 % 10, y / 100 % 10, y / 10 % 10, y % 10,
      m / 10 % 10, m % 10] = y * 100 + m := by
  simp only [valDigits, List.length]
  omega

/-- Python string comparison of two `YYYYMM` tokens is numeric comparison of
`year * 100 + month`. -/
theorem pyStrLe_strftime (y1 m1 y2 m2 : Nat)
    (hy1 : y1 ≤ 9999) (hm1 : m1 ≤ 99) (hy2 : y2 ≤ 9999) (hm2 : m2 ≤ 99) :
    pyStrLe (strftimeYm y1 m1) (strftimeYm y2 m2) =
      decide (y1 * 100 + m1 ≤ y2 * 100 + m2) := by
  unfold pyStrLe
  rw [strftimeYm_data, strftimeYm_data,
    pyCharsLe_digits _ _ (by simp)
      (by intro d hdm; simp at hdm; rcases hdm with h|h|h|h|h|h <;> omega)
      (by intro d hdm; simp at hdm; rcases hdm with h|h|h|h|h|h <;> omega),
    valDigits_ym y1 m1 hy1 hm1, valDigits_ym y2 m2 hy2 hm2]

theorem tokenOfIndex_inj (k1 k2 : Nat) (h1 : k1 < 120000) (h2 : k2 < 120000)
    (h : tokenOfIndex k1 = tokenOfIndex k2) : k1 = k2 := by
  unfold tokenOfIndex at h
  have hd := congrArg String.data h
  rw [strftimeYm_data, strftimeYm_data] at hd
  simp only [List.map_cons, List.map_nil, List.cons.injEq, and_true] at hd
  obtain ⟨e1, e2, e3, e4, e5, e6⟩ := hd
  have g1 := digitChar_inj _ _ (by omega) (by omega) e1
  have g2 := digitChar_inj _ _ (by omega) (by omega) e2
  have g3 := digitChar_inj _ _ (by omega) (by omega) e3
  have g4 := digitChar_inj _ _ (by omega) (by omega) e4
  have g5 := digitChar_inj _ _ (by omega) (by omega) e5
  have g6 := digitChar_inj _ _ (by omega) (by omega) e6
  have hv : (k1 / 12) * 100 + (k1 % 12 + 1) =
      (k2 / 12) * 100 + (k2 % 12 + 1) := by
    rw [← valDigits_ym (k1 / 12) (k1 % 12 + 1) (by omega) (by omega),
      ← valDigits_ym (k2 / 12) (k2 % 12 + 1) (by omega) (by omega),
      g1, g2, g3, g4, g5, g6]
  omega

/-! ### Occurrence-counting lemmas for the legacy `.csv` suffix -/

theorem countOcc_cons (pat : List Char) (c : Char) (cs : List Char) :
    countOcc pat (c :: cs) =
      (if pat.isPrefixOf (c :: cs) then 1 else 0) + countOcc pat cs := rfl

theorem countOcc_skip (p : Char) (pr : List Char) (c : Char) (cs : List Char)
    (h : c ≠ p) : countOcc (p :: pr) (c :: cs) = countOcc (p :: pr) cs := by
  rw [countOcc_cons,
    show (p :: pr).isPrefixOf (c :: cs) = ((p == c) && pr.isPrefixOf cs)
      from rfl,
    show (p == c) = false from beq_eq_false_iff_ne.mpr (fun hc => h hc.symm),
    Bool.false_and, if_neg (by simp), Nat.zero_add]

theorem countOcc_skip2 (p q : Char) (pr : List Char) (c1 c2 : Char)
    (cs : List Char) (h : c2 ≠ q) :
    countOcc (p :: q :: pr) (c1 :: c2 :: cs) =
      countOcc (p :: q :: pr) (c2 :: cs) := by
  rw [countOcc_cons,
    show (p :: q :: pr).isPrefixOf (c1 :: c2 :: cs) =
      ((p == c1) && ((q == c2) && pr.isPrefixOf cs)) from rfl,
    show (q == c2) = false from beq_eq_false_iff_ne.mpr (fun hc => h hc.symm),
    Bool.false_and, Bool.and_false, if_neg (by simp), Nat.zero_add]

theorem countOcc_skip3 (p q r : Char) (pr : List Char) (c1 c2 c3 : Char)
    (cs : List Char) (h : c3 ≠ r) :
    countOcc (p :: q :: r :: pr) (c1 :: c2 :: c3 :: cs) =
      countOcc (p :: q :: r :: pr) (c2 :: c3 :: cs) := by
  rw [countOcc_cons,
    show (p :: q :: r :: pr).isPrefixOf (c1 :: c2 :: c3 :: cs) =
      ((p == c1) && ((q == c2) && ((r == c3) && pr.isPrefixOf cs))) from rfl,
    show (r == c3) = false from beq_eq_false_iff_ne.mpr (fun hc => h hc.symm),
    Bool.false_and, Bool.and_false, Bool.and_false, if_neg (by simp),
    Nat.zero_add]

theorem countOcc_append_no_head (p : Char) (pr : List Char) :
    ∀ xs ys : List Char, p ∉ xs →
      countOcc (p :: pr) (xs ++ ys) = countOcc (p :: pr) ys := by
  intro xs
  induction xs with
  | nil => intro ys _; rfl
  | cons x rest ih =>
    intro ys h
    rw [List.cons_append,
      countOcc_skip p pr x (rest ++ ys)
        (fun hx => h (hx ▸ List.mem_cons_self x rest)),
      ih ys (fun hm => h (List.mem_cons_of_mem x hm))]

theorem digitChar_ne_dot (a : Nat) (h : a < 10) : Nat.digitChar a ≠ '.' := by
  have hfin : ∀ b : Fin 10, Nat.digitChar b.1 ≠ '.' := by decide
  exact hfin ⟨a, h⟩

theorem dot_not_mem_token (y m : Nat) : '.' ∉ (strftimeYm y m).data := by
  rw [strftimeYm_data]
  intro hm
  rw [List.mem_map] at hm
  obtain ⟨a, ham, hda⟩ := hm
  have ha : a < 10 := by
    simp at ham
    rcases ham with h|h|h|h|h|h <;> omega
  exact digitChar_ne_dot a ha hda

theorem countOcc_dotCsv_host (rest : List Char) :
    countOcc dotCsv (DATA_SOURCE_URL.data ++ rest) = countOcc dotCsv rest := by
  rw [show DATA_SOURCE_URL.data =
      ['h', 't', 't', 'p', 's', ':', '/', '/', 's', '3', '.', 'a', 'm', 'a',
       'z', 'o', 'n', 'a', 'w', 's', '.', 'c', 'o', 'm', '/', 't', 'r', 'i',
       'p', 'd', 'a', 't', 'a', '/'] from rfl,
    show dotCsv = '.' :: 'c' :: 's' :: 'v' :: [] from rfl]
  simp only [List.cons_append, List.nil_append]
  simp +decide only [countOcc_skip, countOcc_skip2, countOcc_skip3]

/-- The number of `".csv"` occurrences in a backfill URL: one for a token at
or before the cutoff, zero after it. -/
theorem countOcc_backfillUrl (y m : Nat) :
    countOcc dotCsv (backfillUrl (strftimeYm y m)).data =
      (if pyStrLe (strftimeYm y m) "202404" then 1 else 0) := by
  unfold backfillUrl
  have hdot : '.' ∉ (strftimeYm y m).data := dot_not_mem_token y m
  by_cases hc : pyStrLe (strftimeYm y m) "202404"
  · rw [if_pos hc, if_pos hc, String.data_append, String.data_append,
      String.data_append, String.data_append, List.append_assoc,
      List.append_assoc, List.append_assoc, countOcc_dotCsv_host,
      show dotCsv = '.' :: 'c' :: 's' :: 'v' :: [] from rfl,
      countOcc_append_no_head '.' ['c', 's', 'v'] _ _ hdot]
    decide
  · rw [if_neg hc, if_neg hc, String.data_append, String.data_append,
      String.data_append, String.data_append, List.append_assoc,
      List.append_assoc, List.append_assoc, countOcc_dotCsv_host,
      show dotCsv = '.' :: 'c' :: 's' :: 'v' :: [] from rfl,
      countOcc_append_no_head '.' ['c', 's', 'v'] _ _ hdot]
    decide

/-- No `".csv"` occurs in a default-mode URL. -/
theorem countOcc_defaultUrl (y m : Nat) :
    countOcc dotCsv (defaultUrl (strftimeYm y m)).data = 0 := by
  unfold defaultUrl
  rw [String.data_append, String.data_append, List.append_assoc,
    countOcc_dotCsv_host, show dotCsv = '.' :: 'c' :: 's' :: 'v' :: [] from rfl,
    countOcc_append_no_head '.' ['c', 's', 'v'] _ _ (dot_not_mem_token y m)]
  decide

/-- The shape of `generate_date_strings` on an in-order pair of valid dates:
one token per month, from the start month to the end month. -/
theorem generate_eq_map (s e : Date) (hs1 : 1 ≤ s.month) (hs2 : s.month ≤ 12)
    (he1 : 1 ≤ e.month) (he2 : e.month ≤ 12) (hed : 1 ≤ e.day)
    (hle : Date.leb s e = true) :
    generate_date_strings s e =
      (List.range' (monthIndex s) (monthIndex e + 1 - monthIndex s)).map
        tokenOfIndex := by
  have hmi : monthIndex s ≤ monthIndex e := monthIndex_le_of_leb s e hs2 hle
  unfold generate_date_strings
  rw [show monthIndex e + 1 - monthIndex s =
      (monthIndex e - monthIndex s) + 1 by omega]
  rw [show generate_aux ((monthIndex e - monthIndex s) + 1) s e =
      (if Date.leb s e then
        strftimeYm s.year s.month ::
          generate_aux (monthIndex e - monthIndex s) (nextMonth s) e
      else []) from rfl, if_pos hle]
  have hnm := nextMonth_spec s hs1 hs2
  rw [generate_aux_eq (monthIndex e - monthIndex s) (nextMonth s) e
    hnm.2.1 hnm.2.2.1 hnm.2.2.2 he1 he2 hed (by omega), hnm.1,
    List.range'_succ, List.map_cons, tokenOfIndex_monthIndex s hs1 hs2,
    show monthIndex e + 1 - (monthIndex s + 1) =
      monthIndex e - monthIndex s by omega]

/-! ### The claims -/

/-- Claim C1: for start and end dates with start <= end, `generate_date_strings`
yields exactly one token per calendar month from the start month through the
end month inclusive (so `monthIndex e + 1 - monthIndex s` of them), namely the
tokens of the consecutive month numbers — strictly increasing chronological
order with no duplicates or gaps and correct December-to-January rollover —
and the days of month of both inputs are ignored: the output equals that for
the same months normalized to day 1. -/
theorem generate_date_strings_months_spec (s e : Date)
    (hs1 : 1 ≤ s.month) (hs2 : s.month ≤ 12)
    (he1 : 1 ≤ e.month) (he2 : e.month ≤ 12) (hed : 1 ≤ e.day)
    (hey : e.year ≤ 9999) (hle : Date.leb s e = true) :
    generate_date_strings s e =
      (List.range' (monthIndex s) (monthIndex e + 1 - monthIndex s)).map
        tokenOfIndex
  ∧ (generate_date_strings s e).length = monthIndex e + 1 - monthIndex s
  ∧ (generate_date_strings s e).Nodup
  ∧ generate_date_strings s e =
      generate_date_strings ⟨s.year, s.month, 1⟩ ⟨e.year, e.month, 1⟩ := by
  have hmap := generate_eq_map s e hs1 hs2 he1 he2 hed hle
  have hmi : monthIndex s ≤ monthIndex e := monthIndex_le_of_leb s e hs2 hle
  have hbound : monthIndex e < 120000 := by
    unfold monthIndex
    omega
  refine ⟨hmap, ?_, ?_, ?_⟩
  · rw [hmap, List.length_map, List.length_range']
  · rw [hmap]
    refine List.Nodup.map_on ?_ (List.nodup_range' _ _)
    intro x hx y hy hxy
    rw [List.mem_range'] at hx hy
    obtain ⟨i, hi, rfl⟩ := hx
    obtain ⟨j, hj, rfl⟩ := hy
    exact tokenOfIndex_inj _ _ (by omega) (by omega) hxy
  · have h1 : Date.leb ⟨s.year, s.month, 1⟩ ⟨e.year, e.month, 1⟩ = true :=
      leb_true_of_monthIndex_le _ _ hs1 hs2 rfl he1 he2 (le_refl 1) hmi
    rw [hmap, generate_eq_map ⟨s.year, s.month, 1⟩ ⟨e.year, e.month, 1⟩ hs1 hs2
      he1 he2 (le_refl 1) h1]
    rfl

/-- Witness for C1, at the spec's own example: November 2024 through
February 2025, with mid-month days on both endpoints. -/
theorem generate_date_strings_months_spec_witness :
    generate_date_strings ⟨2024, 11, 5⟩ ⟨2025, 2, 20⟩ =
      ["202411", "202412", "202501", "202502"]
  ∧ (generate_date_strings ⟨2024, 11, 5⟩ ⟨2025, 2, 20⟩).length = 4
  ∧ (generate_date_strings ⟨2024, 11, 5⟩ ⟨2025, 2, 20⟩).Nodup := by
  have h := generate_date_strings_months_spec ⟨2024, 11, 5⟩ ⟨2025, 2, 20⟩
    (by decide) (by decide) (by decide) (by decide) (by decide) (by decide)
    (by decide)
  refine ⟨by decide, ?_, h.2.2.1⟩
  rw [h.2.1]
  decide

/-- Claim C3: the most-recent-period computation maps `today` to the last day
of the previous calendar month (its month number is one less than `today`'s,
its day is that month's last day), and its `YYYYMM` formatting is the token of
that previous month. -/
theorem most_recent_date_prev_month (today : Date) (h1 : 1 ≤ today.month)
    (h2 : today.month ≤ 12) (h3 : 1 ≤ today.year) :
    monthIndex (get_most_recent_date today) + 1 = monthIndex today
  ∧ (get_most_recent_date today).day =
      daysInMonth (get_most_recent_date today).year
        (get_most_recent_date today).month
  ∧ strftimeYm (get_most_recent_date today).year
      (get_most_recent_date today).month = tokenOfIndex (monthIndex today - 1) := by
  have hgm : get_most_recent_date today =
      (if today.month = 1 then (⟨today.year - 1, 12, 31⟩ : Date)
       else ⟨today.year, today.month - 1,
         daysInMonth today.year (today.month - 1)⟩) := by
    unfold get_most_recent_date subOneDay
    simp
  by_cases hm : today.month = 1
  · rw [hgm, if_pos hm]
    refine ⟨?_, rfl, ?_⟩
    · show (today.year - 1) * 12 + (12 - 1) + 1 = today.year * 12 + (today.month - 1)
      omega
    · show strftimeYm (today.year - 1) 12 =
        strftimeYm ((today.year * 12 + (today.month - 1) - 1) / 12)
          ((today.year * 12 + (today.month - 1) - 1) % 12 + 1)
      rw [show (today.year * 12 + (today.month - 1) - 1) / 12 = today.year - 1
          by omega,
        show (today.year * 12 + (today.month - 1) - 1) % 12 + 1 = 12 by omega]
  · rw [hgm, if_neg hm]
    refine ⟨?_, rfl, ?_⟩
    · show today.year * 12 + (today.month - 1 - 1) + 1 =
        today.year * 12 + (today.month - 1)
      omega
    · show strftimeYm today.year (today.month - 1) =
        strftimeYm ((today.year * 12 + (today.month - 1) - 1) / 12)
          ((today.year * 12 + (today.month - 1) - 1) % 12 + 1)
      rw [show (today.year * 12 + (today.month - 1) - 1) / 12 = today.year
          by omega,
        show (today.year * 12 + (today.month - 1) - 1) % 12 + 1 =
          today.month - 1 by omega]

/-- Witness for C3, at the spec's fixed today of 2025-03-15: the computation
lands on 2025-02-28 and formats to `"202502"`. -/
theorem most_recent_date_prev_month_witness :
    monthIndex (get_most_recent_date ⟨2025, 3, 15⟩) + 1 =
      monthIndex ⟨2025, 3, 15⟩
  ∧ get_most_recent_date ⟨2025, 3, 15⟩ = ⟨2025, 2, 28⟩
  ∧ strftimeYm (get_most_recent_date ⟨2025, 3, 15⟩).year
      (get_most_recent_date ⟨2025, 3, 15⟩).month = "202502" := by
  have h := most_recent_date_prev_month ⟨2025, 3, 15⟩ (by decide) (by decide)
    (by decide)
  exact ⟨h.1, by decide, by decide⟩

/-- Claim C7: when the start date is strictly after the end date,
`generate_date_strings` produces the empty sequence (the loop guard fails at
once; no error is possible). -/
theorem generate_date_strings_empty_of_reversed (start_date end_date : Date)
    (h : Date.ltb end_date start_date = true) :
    generate_date_strings start_date end_date = [] := by
  have hf := Date.leb_eq_false_of_ltb start_date end_date h
  unfold generate_date_strings
  cases hn : monthIndex end_date + 1 - monthIndex start_date with
  | zero => rfl
  | succ k =>
    rw [show generate_aux (k + 1) start_date end_date =
      (if Date.leb start_date end_date then
        strftimeYm start_date.year start_date.month ::
          generate_aux k (nextMonth start_date) end_date
      else []) from rfl, if_neg (by simp [hf])]

/-- Witness for C7: a start date five days after the end date (even within the
same month) yields the empty sequence. -/
theorem generate_date_strings_empty_of_reversed_witness :
    Date.ltb ⟨2024, 1, 10⟩ ⟨2024, 1, 15⟩ = true
  ∧ generate_date_strings ⟨2024, 1, 15⟩ ⟨2024, 1, 10⟩ = [] :=
  ⟨by decide,
    generate_date_strings_empty_of_reversed ⟨2024, 1, 15⟩ ⟨2024, 1, 10⟩
      (by decide)⟩

/-- Claim C10: on six-digit `YYYYMM` tokens with four-digit years, the
lexicographic string comparison used on line 215 agrees with chronological
order of the periods, and comparison against the constant `"202404"` selects
exactly the periods at or before April 2024. -/
theorem token_string_order_matches_chronology (y1 m1 y2 m2 : Nat)
    (hy1a : 1000 ≤ y1) (hy1b : y1 ≤ 9999) (hm1a : 1 ≤ m1) (hm1b : m1 ≤ 12)
    (_hy2a : 1000 ≤ y2) (hy2b : y2 ≤ 9999) (hm2a : 1 ≤ m2) (hm2b : m2 ≤ 12) :
    (pyStrLe (strftimeYm y1 m1) (strftimeYm y2 m2) = true ↔
      (y1 < y2 ∨ (y1 = y2 ∧ m1 ≤ m2)))
  ∧ (pyStrLe (strftimeYm y1 m1) "202404" = true ↔
      (y1 < 2024 ∨ (y1 = 2024 ∧ m1 ≤ 4))) := by
  constructor
  · rw [pyStrLe_strftime y1 m1 y2 m2 hy1b (by omega) hy2b (by omega),
      decide_eq_true_eq]
    omega
  · rw [show ("202404" : String) = strftimeYm 2024 4 by decide,
      pyStrLe_strftime y1 m1 2024 4 hy1b (by omega) (by norm_num) (by norm_num),
      decide_eq_true_eq]
    omega

/-- Witness for C10: March 2024 sorts at or before the cutoff, and the
comparison in the concrete cases used by the backfill agrees. -/
theorem token_string_order_matches_chronology_witness :
    (pyStrLe (strftimeYm 2024 3) "202404" = true ↔
      (2024 < 2024 ∨ (2024 = 2024 ∧ 3 ≤ 4)))
  ∧ pyStrLe "202403" "202404" = true
  ∧ pyStrLe "202405" "202404" = false :=
  ⟨(token_string_order_matches_chronology 2024 3 2024 4 (by decide) (by decide)
      (by decide) (by decide) (by decide) (by decide) (by decide) (by decide)).2,
    by decide, by decide⟩

/-- Counterexample to claim C4 as stated: the program also resolves tokens in
default (most-recent) mode, on line 221, and there the legacy suffix is never
appended.  With today = 2024-03-15 the resolved token is `"202402"`, at or
before the cutoff `"202404"`, yet the URL contains no `".csv"`. -/
theorem url_resolution_default_mode_cex :
    strftimeYm (get_most_recent_date ⟨2024, 3, 15⟩).year
      (get_most_recent_date ⟨2024, 3, 15⟩).month = "202402"
  ∧ pyStrLe "202402" "202404" = true
  ∧ resolvedUrls ⟨false, none⟩ ⟨2024, 3, 15⟩ =
      ["https://s3.amazonaws.com/tripdata/202402-citibike-tripdata.zip"]
  ∧ countOcc dotCsv
      ("https://s3.amazonaws.com/tripdata/202402-citibike-tripdata.zip").data =
      0 := by
  decide

/-- Claim C4 as amended: in backfill mode a token at or before the cutoff gets
the legacy `".csv"` suffix exactly once, directly before the `".zip"`
extension, and a token after the cutoff gets no suffix; in default
(most-recent) mode no suffix is ever appended, whatever the token; and a
non-empty explicit URL is used verbatim, bypassing token-based construction
and taking precedence over backfill. -/
theorem url_resolution_spec (y m : Nat) (b : Bool) (u : String) (today : Date)
    (hu : u ≠ "") :
    (pyStrLe (strftimeYm y m) "202404" = true →
      backfillUrl (strftimeYm y m) =
        DATA_SOURCE_URL ++ strftimeYm y m ++ "-citibike-tripdata" ++ ".csv" ++
          ".zip"
      ∧ countOcc dotCsv (backfillUrl (strftimeYm y m)).data = 1)
  ∧ (pyStrLe (strftimeYm y m) "202404" = false →
      backfillUrl (strftimeYm y m) =
        DATA_SOURCE_URL ++ strftimeYm y m ++ "-citibike-tripdata" ++ ".zip"
      ∧ countOcc dotCsv (backfillUrl (strftimeYm y m)).data = 0)
  ∧ countOcc dotCsv (defaultUrl (strftimeYm y m)).data = 0
  ∧ resolvedUrls ⟨b, some u⟩ today = [u] := by
  refine ⟨?_, ?_, countOcc_defaultUrl y m, ?_⟩
  · intro hc
    refine ⟨?_, ?_⟩
    · unfold backfillUrl
      rw [if_pos hc]
    · rw [countOcc_backfillUrl, if_pos hc]
  · intro hc
    refine ⟨?_, ?_⟩
    · unfold backfillUrl
      rw [if_neg (by simp [hc]), String.append_empty]
    · rw [countOcc_backfillUrl, if_neg (by simp [hc])]
  · unfold resolvedUrls
    rw [if_pos (by simp [argTruthy, hu])]
    rfl

/-- Witness for C4 (amended): March 2024 gets the suffix once, May 2024 gets
none, and an explicit URL wins over `--backfill`. -/
theorem url_resolution_spec_witness :
    countOcc dotCsv (backfillUrl (strftimeYm 2024 3)).data = 1
  ∧ countOcc dotCsv (backfillUrl (strftimeYm 2024 5)).data = 0
  ∧ resolvedUrls ⟨true, some "http://x/y.zip"⟩ ⟨2025, 1, 1⟩ =
      ["http://x/y.zip"] := by
  have h1 := url_resolution_spec 2024 3 true "http://x/y.zip" ⟨2025, 1, 1⟩
    (by decide)
  have h2 := url_resolution_spec 2024 5 true "http://x/y.zip" ⟨2025, 1, 1⟩
    (by decide)
  exact ⟨(h1.1 (by decide)).2, (h2.2.1 (by decide)).2, h1.2.2.2⟩

/-- Claim C2: `unzip_file` deletes the archive only when extraction of all
entries fully succeeded — if the archive was present before and is gone
after, the outcome was full success; on either extraction failure the archive
is still on disk; and on full success it returns `True` with the archive
deleted. -/
theorem unzip_file_deletes_only_on_success (fs : FS) (zp : String)
    (out : ExOutcome) :
    ((FS.lookup fs zp).isSome →
      FS.lookup (unzip_file fs zp out).1 zp = none →
        ∃ es, out = ExOutcome.ok es)
  ∧ (∀ got, out = ExOutcome.badZip got ∨ out = ExOutcome.ioError got →
      (FS.lookup fs zp).isSome →
        (FS.lookup (unzip_file fs zp out).1 zp).isSome)
  ∧ (∀ es, out = ExOutcome.ok es →
      (unzip_file fs zp out).2 = true ∧
        FS.lookup (unzip_file fs zp out).1 zp = none) := by
  refine ⟨?_, ?_, ?_⟩
  · intro hpre hnone
    cases out with
    | ok es => exact ⟨es, rfl⟩
    | badZip got =>
      rw [show (unzip_file fs zp (ExOutcome.badZip got)).1 =
        FS.writeAll fs (extractTargets got) from rfl] at hnone
      rw [FS.writeAll_lookup_none fs _ zp hnone] at hpre
      exact absurd hpre (by simp)
    | ioError got =>
      rw [show (unzip_file fs zp (ExOutcome.ioError got)).1 =
        FS.writeAll fs (extractTargets got) from rfl] at hnone
      rw [FS.writeAll_lookup_none fs _ zp hnone] at hpre
      exact absurd hpre (by simp)
    | removeFail es =>
      rw [show (unzip_file fs zp (ExOutcome.removeFail es)).1 =
        FS.writeAll fs (extractTargets es) from rfl] at hnone
      rw [FS.writeAll_lookup_none fs _ zp hnone] at hpre
      exact absurd hpre (by simp)
  · intro got hcase hpre
    rcases hcase with h | h <;> subst h <;>
      exact FS.writeAll_lookup_isSome fs _ zp hpre
  · intro es h
    subst h
    exact ⟨rfl, FS.lookup_remove_self _ _⟩

/-- Witness for C2: a fully successful extraction returns `True` and removes
the archive from the filesystem. -/
theorem unzip_file_deletes_only_on_success_witness :
    (unzip_file [("../raw_data/a.zip", "PK")] "../raw_data/a.zip"
      (ExOutcome.ok [("ride.csv", "rows")])).2 = true
  ∧ FS.lookup (unzip_file [("../raw_data/a.zip", "PK")] "../raw_data/a.zip"
      (ExOutcome.ok [("ride.csv", "rows")])).1 "../raw_data/a.zip" = none :=
  (unzip_file_deletes_only_on_success [("../raw_data/a.zip", "PK")]
    "../raw_data/a.zip" (ExOutcome.ok [("ride.csv", "rows")])).2.2
    [("ride.csv", "rows")] rfl

/-- Counterexample to claim C6 as stated: `extractall` extracts members one at
a time and `unzip_file` performs no cleanup, so a failure part-way (here an
I/O error after the first member) leaves that partial entry in the output
directory, contradicting "no partial extracted entries are present". -/
theorem unzip_partial_entries_cex :
    (unzip_file [("../raw_data/a.zip", "PK")] "../raw_data/a.zip"
      (ExOutcome.ioError [("ride1.csv", "rows")])).2 = false
  ∧ FS.lookup (unzip_file [("../raw_data/a.zip", "PK")] "../raw_data/a.zip"
      (ExOutcome.ioError [("ride1.csv", "rows")])).1 "../raw_data/ride1.csv" =
      some "rows"
  ∧ FS.lookup (unzip_file [("../raw_data/a.zip", "PK")] "../raw_data/a.zip"
      (ExOutcome.ioError [("ride1.csv", "rows")])).1 "../raw_data/a.zip" =
      some "PK" := by
  decide

/-- Claim C6 as amended: on an extraction failure — `BadZipFile` (corrupt
container) or any other error — `unzip_file` returns `False`, the archive file
is left in place, paths outside the extracted entries are untouched, and
exactly the entries extracted before the failure are present in the output
directory (none when the container was rejected at open, i.e. `got = []`). -/
theorem unzip_failure_state_spec (fs : FS) (zp : String)
    (got : List (String × String)) (hnd : (got.map Prod.fst).Nodup)
    (out : ExOutcome)
    (hout : out = ExOutcome.badZip got ∨ out = ExOutcome.ioError got) :
    (unzip_file fs zp out).2 = false
  ∧ ((FS.lookup fs zp).isSome → (FS.lookup (unzip_file fs zp out).1 zp).isSome)
  ∧ (∀ p, p ∉ (extractTargets got).map Prod.fst →
      FS.lookup (unzip_file fs zp out).1 p = FS.lookup fs p)
  ∧ (∀ n c, (n, c) ∈ got →
      FS.lookup (unzip_file fs zp out).1 (pathJoin DATA_DIR n) = some c) := by
  have htnd : ((extractTargets got).map Prod.fst).Nodup := by
    unfold extractTargets
    rw [List.map_map,
      show (Prod.fst ∘ fun e : String × String => (pathJoin DATA_DIR e.1, e.2)) =
        (pathJoin DATA_DIR ∘ Prod.fst) from rfl, ← List.map_map]
    exact hnd.map (fun a b h => pathJoin_inj DATA_DIR a b h)
  rcases hout with h | h <;> subst h <;>
    exact ⟨rfl, fun hpre => FS.writeAll_lookup_isSome fs _ zp hpre,
      fun p hp => FS.writeAll_lookup_not_mem fs _ p hp,
      fun n c hm => FS.writeAll_lookup_mem fs _ (pathJoin DATA_DIR n) c htnd
        (List.mem_map_of_mem _ hm)⟩

/-- Witness for C6 (amended): a `BadZipFile` after one extracted member leaves
the archive and that member on disk and returns `False`. -/
theorem unzip_failure_state_spec_witness :
    (unzip_file [("../raw_data/b.zip", "PK")] "../raw_data/b.zip"
      (ExOutcome.badZip [("first.csv", "r1")])).2 = false
  ∧ FS.lookup (unzip_file [("../raw_data/b.zip", "PK")] "../raw_data/b.zip"
      (ExOutcome.badZip [("first.csv", "r1")])).1
      (pathJoin DATA_DIR "first.csv") = some "r1" := by
  have h := unzip_failure_state_spec [("../raw_data/b.zip", "PK")]
    "../raw_data/b.zip" [("first.csv", "r1")] (by decide)
    (ExOutcome.badZip [("first.csv", "r1")]) (Or.inl rfl)
  exact ⟨h.1, h.2.2.2 "first.csv" "r1" (by decide)⟩

/-- The per-URL loop processes every URL, whatever each period's outcome: the
`for` loop of `main` has no `break`. -/
theorem processUrls_trace (urls : List String) :
    ∀ (fs : FS) (env : String → PeriodEnv),
      (processUrls fs urls env).2 = urls := by
  induction urls with
  | nil => intro fs env; rfl
  | cons u us ih =>
    intro fs env
    rw [show processUrls fs (u :: us) env =
      ((processUrls (download_and_unzip fs u (env u)) us env).1,
        u :: (processUrls (download_and_unzip fs u (env u)) us env).2)
      from rfl]
    rw [ih]

/-- Claim C5: a failed download creates nothing — on a request-level error
(network failure or non-success status) `download_file` returns the filesystem
unchanged with `None`, and likewise for a URL whose path yields an empty
filename, whatever the network would have answered; and a backfill run still
processes every resolved period URL, never halting on a failure. -/
theorem download_failure_skips_period (fs : FS) (url : String) (today : Date)
    (env : String → PeriodEnv) :
    download_file fs url DlOutcome.requestError = (fs, none)
  ∧ (basename (urlparsePath url) = "" →
      ∀ out, download_file fs url out = (fs, none))
  ∧ (runMain ⟨true, none⟩ today fs env).2 = resolvedUrls ⟨true, none⟩ today := by
  refine ⟨?_, ?_, ?_⟩
  · unfold download_file
    by_cases h : basename (urlparsePath url) = ""
    · rw [if_pos h]
    · rw [if_neg h]
  · intro h out
    unfold download_file
    rw [if_pos h]
  · exact processUrls_trace _ fs env

/-- Witness for C5: a network error on a well-formed URL leaves the (empty)
filesystem unchanged, and a backfill run against an all-failing network still
visits every period URL. -/
theorem download_failure_skips_period_witness :
    download_file [] "https://s3.amazonaws.com/tripdata/x.zip"
      DlOutcome.requestError = ([], none)
  ∧ (runMain ⟨true, none⟩ ⟨2024, 2, 15⟩ []
      (fun _ => ⟨DlOutcome.requestError, ExOutcome.badZip []⟩)).2 =
      resolvedUrls ⟨true, none⟩ ⟨2024, 2, 15⟩ := by
  have h := download_failure_skips_period []
    "https://s3.amazonaws.com/tripdata/x.zip" ⟨2024, 2, 15⟩
    (fun _ => ⟨DlOutcome.requestError, ExOutcome.badZip []⟩)
  exact ⟨h.1, h.2.2⟩

/-- Claim C8: when the response headers succeed but the body stream fails
part-way, `download_file` returns `None` while the partially written file is
left at the final output path under the output directory — no cleanup. -/
theorem stream_failure_leaves_partial_file (fs : FS) (url : String)
    (got : String) (h : basename (urlparsePath url) ≠ "") :
    (download_file fs url (DlOutcome.streamFail got)).2 = none
  ∧ FS.lookup (download_file fs url (DlOutcome.streamFail got)).1
      (pathJoin DATA_DIR (basename (urlparsePath url))) = some got := by
  unfold download_file
  rw [if_neg h]
  exact ⟨rfl, FS.lookup_write_self fs _ got⟩

/-- Witness for C8: a stream failure after `"PARTIAL"` was written leaves that
content at the target path and reports failure. -/
theorem stream_failure_leaves_partial_file_witness :
    (download_file [] "https://s3.amazonaws.com/tripdata/a.zip"
      (DlOutcome.streamFail "PARTIAL")).2 = none
  ∧ FS.lookup (download_file [] "https://s3.amazonaws.com/tripdata/a.zip"
      (DlOutcome.streamFail "PARTIAL")).1
      (pathJoin DATA_DIR
        (basename (urlparsePath "https://s3.amazonaws.com/tripdata/a.zip"))) =
      some "PARTIAL" :=
  stream_failure_leaves_partial_file []
    "https://s3.amazonaws.com/tripdata/a.zip" "PARTIAL" (by decide)

/-- Claim C9: the local filename is derived solely from the basename of the
URL path — a successful download lands at `DATA_DIR/<basename>`; any other
URL sharing that basename resolves to the very same local path; and a
successful download silently overwrites whatever file was already there. -/
theorem filename_from_url_basename_overwrite (fs : FS) (url u2 : String)
    (body c2 old : String) (h : basename (urlparsePath url) ≠ "")
    (hsame : basename (urlparsePath u2) = basename (urlparsePath url))
    (_hold : FS.lookup fs (pathJoin DATA_DIR (basename (urlparsePath url))) =
      some old) :
    (download_file fs url (DlOutcome.streamOk body)).2 =
      some (pathJoin DATA_DIR (basename (urlparsePath url)))
  ∧ (download_file fs u2 (DlOutcome.streamOk c2)).2 =
      some (pathJoin DATA_DIR (basename (urlparsePath url)))
  ∧ FS.lookup (download_file fs url (DlOutcome.streamOk body)).1
      (pathJoin DATA_DIR (basename (urlparsePath url))) = some body := by
  have h2 : basename (urlparsePath u2) ≠ "" := by
    rw [hsame]
    exact h
  unfold download_file
  rw [if_neg h, if_neg h2, hsame]
  exact ⟨rfl, rfl, FS.lookup_write_self fs _ body⟩

/-- Witness for C9: two URLs on different hosts and directories but with the
same basename `f.zip` both target `DATA_DIR/f.zip`, and downloading over an
existing file replaces its content. -/
theorem filename_from_url_basename_overwrite_witness :
    (download_file [(pathJoin DATA_DIR "f.zip", "OLD")]
      "https://a.example/x/f.zip" (DlOutcome.streamOk "NEW")).2 =
      some (pathJoin DATA_DIR
        (basename (urlparsePath "https://a.example/x/f.zip")))
  ∧ (download_file [(pathJoin DATA_DIR "f.zip", "OLD")]
      "https://b.example/y/f.zip" (DlOutcome.streamOk "OTHER")).2 =
      some (pathJoin DATA_DIR
        (basename (urlparsePath "https://a.example/x/f.zip")))
  ∧ FS.lookup (download_file [(pathJoin DATA_DIR "f.zip", "OLD")]
      "https://a.example/x/f.zip" (DlOutcome.streamOk "NEW")).1
      (pathJoin DATA_DIR
        (basename (urlparsePath "https://a.example/x/f.zip"))) =
      some "NEW" :=
  filename_from_url_basename_overwrite [(pathJoin DATA_DIR "f.zip", "OLD")]
    "https://a.example/x/f.zip" "https://b.example/y/f.zip" "NEW" "OTHER"
    "OLD" (by decide) (by decide) (by decide)

end CitiBike
